import Mathlib

/-!
Shallow embedding of the block-identification and file-correlation engine of
the gnuradio-integration extension (src/moduleTree.ts, src/modtool.ts).

File names are modelled as lists of characters (`Name`).  The directory
listing of the four scanned facet directories is modelled explicitly in
`ProjectFS`; a missing directory is `none` (the editor platform's
`workspace.fs.readDirectory` rejects with a FileNotFound error for a missing
directory, which the source does not catch).  Fallible operations return
`Except String`.

The helper module `blockFilter.ts` is imported by both source files but is
not part of the given sources; its predicates and inventory builders are
modelled from the spec (sections 4.1 and 4.2) and are marked as such below.
-/

namespace GnuRadio

abbrev Name := List Char

inductive FileType where
  | file
  | directory
  | symbolicLink
deriving DecidableEq

abbrev Entry := Name × FileType

/-- The four directories scanned by the inventory builder and the file
correlator: `grc`, `include/gnuradio/<moduleName>`, `python/<moduleName>`
and `lib`.  `none` models a directory that does not exist. -/
structure ProjectFS where
  grc : Option (List Entry)
  includeDir : Option (List Entry)
  pythonDir : Option (List Entry)
  libDir : Option (List Entry)

/- String fragments used by the classifiers. -/

def usep : Name := "_".data

def slash : Name := "/".data

def ymlSuffix : Name := ".block.yml".data

def xmlSuffix : Name := ".xml".data

def hSuffix : Name := ".h".data

def pySuffix : Name := ".py".data

def ccSuffix : Name := ".cc".data

def cppSuffix : Name := ".cpp".data

def cxxSuffix : Name := ".cxx".data

def implSuffix : Name := "_impl".data

def apiHeader : Name := "api.h".data

def initPy : Name := "__init__.py".data

def qaPre : Name := "qa_".data

def pythonCcSuffix : Name := "_python.cc".data

/-- Modelled from the spec: blockFilter.ts (not in the given sources),
classifier for current-format definition files — a name ending in
`.block.yml`. -/
def filterGrcBlocks (n : Name) : Bool :=
  ymlSuffix.isSuffixOf n

/-- Modelled from the spec: blockFilter.ts, classifier for legacy-format
definition files — a name ending in `.xml`. -/
def filterXmlBlocks (n : Name) : Bool :=
  xmlSuffix.isSuffixOf n

/-- Modelled from the spec: blockFilter.ts, classifier for public header
files — a name ending in `.h`, excluding the common non-block `api.h`
header. -/
def filterCppBlocks (n : Name) : Bool :=
  hSuffix.isSuffixOf n && !(n = apiHeader : Bool)

/-- Modelled from the spec: blockFilter.ts, the reserved test-filename
pattern — a name starting with `qa_`. -/
def filterBlockTests (n : Name) : Bool :=
  qaPre.isPrefixOf n

/-- Modelled from the spec: blockFilter.ts, classifier for python
implementation files — a name ending in `.py`, excluding `__init__.py`
and test files. -/
def filterPyBlocks (n : Name) : Bool :=
  pySuffix.isSuffixOf n && !(n = initPy : Bool) && !filterBlockTests n

def isCppSource (n : Name) : Bool :=
  ccSuffix.isSuffixOf n || cppSuffix.isSuffixOf n || cxxSuffix.isSuffixOf n

/-- Modelled from the spec: blockFilter.ts, classifier for library
implementation sources — a C++ source extension, neither a test file nor a
generated binding file. -/
def filterCppImplFiles (n : Name) : Bool :=
  isCppSource n && !filterBlockTests n && !(pythonCcSuffix.isSuffixOf n)

/-- Remove a suffix when present (the semantics of `String.replace` with an
anchored pattern, as used for identifier extraction). -/
def stripSuffixL (q n : Name) : Name :=
  if q.isSuffixOf n then n.take (n.length - q.length) else n

/-- Remove a leading fragment when present. -/
def stripPrefixL (p n : Name) : Name :=
  if p.isPrefixOf n then n.drop p.length else n

/-- Remove a single C++ source extension from the end of a name. -/
def stripCppExt (n : Name) : Name :=
  if ccSuffix.isSuffixOf n then stripSuffixL ccSuffix n
  else if cppSuffix.isSuffixOf n then stripSuffixL cppSuffix n
  else if cxxSuffix.isSuffixOf n then stripSuffixL cxxSuffix n
  else n

/-- Modelled from the spec: blockFilter.ts, identifier extraction for a
current-format definition file `<moduleName>_<blockId>.block.yml`. -/
def grcBlockName (m n : Name) : Option Name :=
  if (m ++ usep).isPrefixOf n && filterGrcBlocks n then
    some (stripSuffixL ymlSuffix (stripPrefixL (m ++ usep) n))
  else none

/-- Modelled from the spec: blockFilter.ts, identifier extraction for a
legacy definition file `<moduleName>_<blockId>.xml`. -/
def xmlBlockName (m n : Name) : Option Name :=
  if (m ++ usep).isPrefixOf n && filterXmlBlocks n then
    some (stripSuffixL xmlSuffix (stripPrefixL (m ++ usep) n))
  else none

/-- Modelled from the spec: blockFilter.ts, identifier extraction for a
public header `<blockId>.h`, excluding the module umbrella header. -/
def cppBlockName (m n : Name) : Option Name :=
  if filterCppBlocks n && !(n = m ++ hSuffix : Bool) then
    some (stripSuffixL hSuffix n)
  else none

/-- Modelled from the spec: blockFilter.ts, identifier extraction for a
python implementation file `<blockId>.py`. -/
def pyBlockName (n : Name) : Option Name :=
  if filterPyBlocks n then some (stripSuffixL pySuffix n) else none

/-- Modelled from the spec: blockFilter.ts, identifier extraction for a
library implementation source: the extension is stripped and an `_impl`
suffix is normalized away when present. -/
def cppImplBlockName (n : Name) : Option Name :=
  if filterCppImplFiles n then
    some (stripSuffixL implSuffix (stripCppExt n))
  else none

/-- Modelled from the spec: the inventory builder treats a missing
subdirectory as zero matches, not as an error. -/
def listDirOrEmpty (d : Option (List Entry)) : List Entry :=
  d.getD []

def getGrcBlocks (m : Name) (es : List Entry) : List Name :=
  es.filterMap (fun e => grcBlockName m e.1)

def getXmlBlocksOf (m : Name) (es : List Entry) : List Name :=
  es.filterMap (fun e => xmlBlockName m e.1)

def getCppBlocksOf (m : Name) (es : List Entry) : List Name :=
  es.filterMap (fun e => cppBlockName m e.1)

def getPyBlocks (es : List Entry) : List Name :=
  es.filterMap (fun e => pyBlockName e.1)

def getCppImplBlocks (es : List Entry) : List Name :=
  es.filterMap (fun e => cppImplBlockName e.1)

/-- Modelled from the spec: blockFilter.ts `getAllBlocks` — the union of
the identifiers derived from current definitions, legacy definitions,
public headers, python implementations and library implementation
sources. -/
def getAllBlocks (m : Name) (fs : ProjectFS) : List Name :=
  getGrcBlocks m (listDirOrEmpty fs.grc) ++
  getXmlBlocksOf m (listDirOrEmpty fs.grc) ++
  getCppBlocksOf m (listDirOrEmpty fs.includeDir) ++
  getPyBlocks (listDirOrEmpty fs.pythonDir) ++
  getCppImplBlocks (listDirOrEmpty fs.libDir)

/- ----------------------------------------------------------------- -/
/- The file correlator: moduleTree.ts, getBlockFilesTree.            -/
/- ----------------------------------------------------------------- -/

def expectedFileMsg : String := "Expected a file, got something else"

/-- The platform rejects a directory listing of a missing directory with a
FileNotFound failure; the source does not catch it. -/
def fileNotFoundMsg : String := "FileNotFound"

def readdir (d : Option (List Entry)) : Except String (List Entry) :=
  match d with
  | some es => Except.ok es
  | none => Except.error fileNotFoundMsg

/-- Modelled from the spec: the exposed inventory contract
`listAllBlocks(root, moduleName)` of blockFilter.ts (not in the given
sources) with the root-failure policy of section 4.2 — a missing or
unreadable project root (`none`) propagates as a reported error, while
with a readable root the inventory is computed from the facet
directories, each missing facet directory contributing zero matches. -/
def listAllBlocks (m : Name) (root : Option ProjectFS) : Except String (List Name) :=
  match root with
  | none => Except.error fileNotFoundMsg
  | some fs => Except.ok (getAllBlocks m fs)

/-- A produced tree item, reduced to its data content: the role label and
the file path. -/
abbrev Item := Name × Name

def labelBlockDef : Name := "Block definition".data

def labelImpl : Name := "Implementation".data

def labelHeaderRole : Name := "Public header".data

def labelImplSource : Name := "Implementation source".data

def labelImplHeader : Name := "Implementation header".data

def labelPyTests : Name := "Python Tests".data

def labelCppTests : Name := "C++ Tests".data

def dirGrc : Name := "grc".data

def dirInclude (m : Name) : Name := "include/gnuradio/".data ++ m

def dirPython (m : Name) : Name := "python/".data ++ m

def dirLib : Name := "lib".data

/-- moduleTree.ts, `mapBlockToTreeItem` (lines 68-84): an entry that is not
a regular file makes the correlation throw; otherwise a labelled item
holding the file path is produced.  The label function `lf` accounts for
the per-file label adjustment performed for library implementation
files. -/
def mapBlockToTreeItem (lf : Name → Name) (dir : Name) (e : Entry) : Except String Item :=
  if e.2 = FileType.file then Except.ok (lf e.1, dir ++ slash ++ e.1)
  else Except.error expectedFileMsg

/-- Sequential effectful map: the first throwing element aborts the whole
computation, as JavaScript `Array.map` with a throwing callback does. -/
def mapE (f : Entry → Except String Item) : List Entry → Except String (List Item)
  | [] => Except.ok []
  | e :: es => do
    let x ← f e
    let xs ← mapE f es
    Except.ok (x :: xs)

/-- moduleTree.ts line 87-89: filter for the `grc` facet of the queried
block. -/
def grcMatch (block m : Name) (e : Entry) : Bool :=
  (m ++ usep ++ block).isPrefixOf e.1 && (filterGrcBlocks e.1 || filterXmlBlocks e.1)

/-- moduleTree.ts line 93-95: filter for the public-header facet. -/
def cppMatch (block : Name) (e : Entry) : Bool :=
  block.isPrefixOf e.1 && filterCppBlocks e.1

/-- moduleTree.ts line 100-102: filter for the python implementation
facet. -/
def pyMatch (block : Name) (e : Entry) : Bool :=
  block.isPrefixOf e.1 && filterPyBlocks e.1

/-- moduleTree.ts line 105-107: filter for the python test facet. -/
def pyTestMatch (block : Name) (e : Entry) : Bool :=
  filterBlockTests e.1 && (block ++ pySuffix).isSuffixOf e.1

/-- node `path.extname` restricted to a base name: the fragment of the
name from its last dot on, empty when there is no dot or the only dot is
leading. -/
def extAux : Name → Option Name
  | [] => none
  | c :: cs =>
    match extAux cs with
    | some e => some e
    | none => if c = '.' then some (c :: cs) else none

def extname (n : Name) : Name :=
  match extAux n with
  | some e => if e.length = n.length then [] else e
  | none => []

/-- moduleTree.ts line 112-114: filter for the library implementation
facet. -/
def cppImplMatch (block : Name) (e : Entry) : Bool :=
  block.isPrefixOf e.1 && (filterCppImplFiles e.1 || (extname e.1 = hSuffix : Bool))

/-- moduleTree.ts line 117: label adjustment for library implementation
files. -/
def cppImplLabel (n : Name) : Name :=
  if extname n = hSuffix then labelImplHeader else labelImplSource

/-- The search semantics of the C++ test pattern built at moduleTree.ts
line 123: the template literal collapses the escape, so the produced
regular expression is `<block>.(cc|cpp|cxx)` in which the dot matches any
character; `test` looks for a match anywhere in the name.  This decides
whether the name contains the block name followed by any one character
followed by `cc`, `cpp` or `cxx`. -/
def cppTestMatchAt (block s : Name) : Bool :=
  block.isPrefixOf s &&
    (match s.drop block.length with
     | [] => false
     | _ :: r => ccAlt.any (fun e => e.isPrefixOf r))
where ccAlt : List Name := ["cc".data, "cpp".data, "cxx".data]

def cppTestRegexTest (block : Name) : Name → Bool
  | [] => cppTestMatchAt block []
  | s@(_ :: t) => cppTestMatchAt block s || cppTestRegexTest block t

/-- moduleTree.ts line 121-123: filter for the C++ test facet. -/
def cppTestMatch (block : Name) (e : Entry) : Bool :=
  filterBlockTests e.1 && cppTestRegexTest block e.1

def grcFilesOf (block m : Name) (es : List Entry) : Except String (List Item) :=
  mapE (mapBlockToTreeItem (fun _ => labelBlockDef) dirGrc) (es.filter (grcMatch block m))

def cppFilesOf (block m : Name) (es : List Entry) : Except String (List Item) :=
  mapE (mapBlockToTreeItem (fun _ => labelHeaderRole) (dirInclude m)) (es.filter (cppMatch block))

def pyFilesOf (block m : Name) (es : List Entry) : Except String (List Item) :=
  mapE (mapBlockToTreeItem (fun _ => labelImpl) (dirPython m)) (es.filter (pyMatch block))

def pyTestFilesOf (block m : Name) (es : List Entry) : Except String (List Item) :=
  mapE (mapBlockToTreeItem (fun _ => labelPyTests) (dirPython m)) (es.filter (pyTestMatch block))

def cppImplFilesOf (block : Name) (es : List Entry) : Except String (List Item) :=
  mapE (mapBlockToTreeItem cppImplLabel dirLib) (es.filter (cppImplMatch block))

def cppTestFilesOf (block : Name) (es : List Entry) : Except String (List Item) :=
  mapE (mapBlockToTreeItem (fun _ => labelCppTests) dirLib) (es.filter (cppTestMatch block))

/-- moduleTree.ts, `getBlockFilesTree` (lines 64-127): each facet
directory is listed, the entries matching the queried block are mapped to
labelled items, and the six groups are concatenated in the source's fixed
presentation order. -/
def getBlockFilesTree (block : Name) (fs : ProjectFS) (moduleName : Name) :
    Except String (List Item) := do
  let gs ← readdir fs.grc
  let grcFiles ← grcFilesOf block moduleName gs
  let cs ← readdir fs.includeDir
  let cppFiles ← cppFilesOf block moduleName cs
  let ps ← readdir fs.pythonDir
  let pyFiles ← pyFilesOf block moduleName ps
  let pyTestFiles ← pyTestFilesOf block moduleName ps
  let ls ← readdir fs.libDir
  let cppImplFiles ← cppImplFilesOf block ls
  let cppTestFiles ← cppTestFilesOf block ls
  return grcFiles ++ pyFiles ++ cppFiles ++ cppImplFiles ++ pyTestFiles ++ cppTestFiles

/- ----------------------------------------------------------------- -/
/- Validation of a new block name: modtool.ts, validateBlockName.    -/
/- ----------------------------------------------------------------- -/

inductive Severity where
  | error
  | warning
deriving DecidableEq

structure ValidationMessage where
  message : String
  severity : Severity
deriving DecidableEq

def msgEmpty : String := "Name cannot be empty"

def msgCharset : String := "Name can only contain ASCII letters, digits and underscores"

def msgShort : String := "Descriptive names usually contain at least 3 symbols"

def msgCollide : String := "Block with that name is already present"

def trimL (n : Name) : Name :=
  ((n.dropWhile Char.isWhitespace).reverse.dropWhile Char.isWhitespace).reverse

/-- A word character of the host regular-expression dialect:
ASCII letters, digits and the underscore. -/
def wordChar (c : Char) : Bool :=
  c.isAlphanum || c = '_'

/-- The anchored test of the character-class pattern at modtool.ts line 37.
The source's class is written with comma separators, so besides word
characters it also admits the comma itself. -/
def nameCharClassOk (n : Name) : Bool :=
  !n.isEmpty && n.all (fun c => wordChar c || c = ',')

/-- modtool.ts, `validateBlockName` (lines 28-58).  `none` is the valid
verdict (the source returns null). -/
def validateBlockName (existingBlocks : List Name) (value : Name) :
    Option ValidationMessage :=
  let name := trimL value
  if name.length = 0 then some ⟨msgEmpty, Severity.error⟩
  else if !nameCharClassOk name then some ⟨msgCharset, Severity.error⟩
  else if name.length < 3 then some ⟨msgShort, Severity.warning⟩
  else if name ∈ existingBlocks then some ⟨msgCollide, Severity.error⟩
  else none

/- ----------------------------------------------------------------- -/
/- Name resolution: the branch shared by removeBlock, disableBlock   -/
/- and createPythonBindings in modtool.ts.                           -/
/- ----------------------------------------------------------------- -/

inductive Resolution where
  | single (b : Name)
  | many (bs : List Name)
deriving DecidableEq

/-- The pure content of a successful `mapE` run over already-filtered
entries: one labelled item per entry. -/
def itemsOf (lf : Name → Name) (dir : Name) (es : List Entry) : List Item :=
  es.map fun e => (lf e.1, dir ++ slash ++ e.1)

/-- Fixture: a project whose `lib` directory holds an implementation file
and a C++ test file for the block `foo`. -/
def fs7 : ProjectFS :=
  ⟨some [], some [], some [],
   some [(("foo_impl.cc").data, FileType.file), (("qa_foo.cc").data, FileType.file)]⟩

/-- Fixture: a project with a single current-format definition file and no
other facet directories. -/
def fs1cex : ProjectFS :=
  ⟨some [(("m_foo.block.yml").data, FileType.file)], none, none, none⟩

/-- Fixture: a project whose `grc` facet directory is missing while the
other facet directories exist and are empty. -/
def fs3 : ProjectFS := ⟨none, some [], some [], some []⟩

/-- The name-resolution branch implemented identically in `removeBlock`
(modtool.ts lines 538-554), `disableBlock` (lines 488-501) and
`createPythonBindings` (lines 360-367): when the candidate is a member of
the inventory the single-block branch is taken; otherwise the candidate is
compiled as a regular expression and the inventory is filtered by it.  The
host platform's regular-expression search is abstracted as the `test`
parameter. -/
def resolveBlockSet (test : Name → Name → Bool) (existingBlocks : List Name)
    (blockName : Name) : Resolution :=
  if blockName ∈ existingBlocks then Resolution.single blockName
  else Resolution.many (existingBlocks.filter (test blockName))

/- ----------------------------------------------------------------- -/
/- Theorems.                                                          -/
/- ----------------------------------------------------------------- -/

@[simp] theorem ok_bind {α β : Type} (a : α) (f : α → Except String β) :
    (Except.ok a >>= f) = f a := rfl

@[simp] theorem err_bind {α β : Type} (e : String) (f : α → Except String β) :
    ((Except.error e : Except String α) >>= f) = Except.error e := rfl

@[simp] theorem pure_ok {α : Type} (a : α) :
    (pure a : Except String α) = Except.ok a := rfl

theorem isPre_iff {l1 l2 : Name} : l1.isPrefixOf l2 = true ↔ l1 <+: l2 :=
  List.isPrefixOf_iff_prefix

theorem mapE_ok_of_files (lf : Name → Name) (dir : Name) (es : List Entry)
    (h : ∀ e ∈ es, e.2 = FileType.file) :
    mapE (mapBlockToTreeItem lf dir) es = Except.ok (itemsOf lf dir es) := by
  induction es with
  | nil => rfl
  | cons e es ih =>
    have he : e.2 = FileType.file := h e (List.mem_cons_self e es)
    have hrest : ∀ x ∈ es, x.2 = FileType.file := fun x hx => h x (List.mem_cons_of_mem e hx)
    simp [mapE, mapBlockToTreeItem, he, ih hrest, itemsOf]

theorem mapE_err_of_bad (lf : Name → Name) (dir : Name) (es : List Entry)
    (h : ∃ e ∈ es, e.2 ≠ FileType.file) :
    mapE (mapBlockToTreeItem lf dir) es = Except.error expectedFileMsg := by
  induction es with
  | nil =>
    obtain ⟨x, hx, _⟩ := h
    exact absurd hx (List.not_mem_nil x)
  | cons e es ih =>
    by_cases he : e.2 = FileType.file
    · obtain ⟨x, hx, hbad⟩ := h
      rcases List.mem_cons.mp hx with rfl | hx'
      · exact absurd he hbad
      · simp [mapE, mapBlockToTreeItem, he, ih ⟨x, hx', hbad⟩]
    · simp [mapE, mapBlockToTreeItem, he]

theorem mapE_cases (lf : Name → Name) (dir : Name) (es : List Entry) :
    (∃ xs, mapE (mapBlockToTreeItem lf dir) es = Except.ok xs) ∨
      mapE (mapBlockToTreeItem lf dir) es = Except.error expectedFileMsg := by
  induction es with
  | nil => exact Or.inl ⟨[], rfl⟩
  | cons e es ih =>
    by_cases he : e.2 = FileType.file
    · rcases ih with ⟨xs, hxs⟩ | hbad
      · exact Or.inl ⟨(lf e.1, dir ++ slash ++ e.1) :: xs,
          by simp [mapE, mapBlockToTreeItem, he, hxs]⟩
      · exact Or.inr (by simp [mapE, mapBlockToTreeItem, he, hbad])
    · exact Or.inr (by simp [mapE, mapBlockToTreeItem, he])

theorem mapE_ok_mem (lf : Name → Name) (dir : Name) (es : List Entry)
    (xs : List Item) (h : mapE (mapBlockToTreeItem lf dir) es = Except.ok xs) :
    ∀ x ∈ xs, ∃ e ∈ es, x = (lf e.1, dir ++ slash ++ e.1) := by
  induction es generalizing xs with
  | nil =>
    simp [mapE] at h
    subst h
    intro x hx
    exact absurd hx (List.not_mem_nil x)
  | cons e es ih =>
    by_cases he : e.2 = FileType.file
    · simp [mapE, mapBlockToTreeItem, he] at h
      rcases hrest : mapE (mapBlockToTreeItem lf dir) es with e' | ys
      · rw [hrest] at h
        simp at h
      · rw [hrest] at h
        simp at h
        subst h
        intro x hx
        rcases List.mem_cons.mp hx with rfl | hx'
        · exact ⟨e, List.mem_cons_self e es, by simp⟩
        · obtain ⟨e', he', hxe⟩ := ih ys hrest x hx'
          exact ⟨e', List.mem_cons_of_mem e he', hxe⟩
    · simp [mapE, mapBlockToTreeItem, he] at h

theorem stripSuffixL_isPre (q n : Name) : stripSuffixL q n <+: n := by
  unfold stripSuffixL
  split
  · exact List.take_prefix _ n
  · exact List.prefix_refl n

theorem stripCppExt_isPre (n : Name) : stripCppExt n <+: n := by
  unfold stripCppExt
  split
  · exact stripSuffixL_isPre _ n
  · split
    · exact stripSuffixL_isPre _ n
    · split
      · exact stripSuffixL_isPre _ n
      · exact List.prefix_refl n

theorem stripSuffixL_append (q n : Name) (h : q.isSuffixOf n) :
    stripSuffixL q n ++ q = n := by
  obtain ⟨t, ht⟩ := List.isSuffixOf_iff_suffix.mp h
  unfold stripSuffixL
  rw [if_pos h]
  subst ht
  rw [List.length_append, Nat.add_sub_cancel, List.take_left]

/-- Identifier extraction inverts to a name part: stripping a present
leading fragment and then a possible trailing fragment yields a fragment
whose concatenation with the leading part is itself a leading part of the
name. -/
theorem extract_isPre (p q n : Name) (hp : p <+: n) :
    p ++ stripSuffixL q (n.drop p.length) <+: n := by
  obtain ⟨r, hr⟩ := hp
  subst hr
  rw [List.drop_left]
  by_cases hq : q.isSuffixOf r
  · have := stripSuffixL_append q r hq
    exact ⟨q, by rw [List.append_assoc, this]⟩
  · unfold stripSuffixL
    rw [if_neg hq]

theorem grc_corr (m block : Name) (e : Entry) (h : grcBlockName m e.1 = some block) :
    grcMatch block m e = true := by
  unfold grcBlockName at h
  split at h
  case isTrue hcond =>
    rw [Bool.and_eq_true] at hcond
    obtain ⟨hpre, hgrc⟩ := hcond
    have hblock : block = stripSuffixL ymlSuffix (stripPrefixL (m ++ usep) e.1) :=
      (Option.some_inj.mp h).symm
    unfold grcMatch
    rw [Bool.and_eq_true, Bool.or_eq_true]
    refine ⟨?_, Or.inl hgrc⟩
    rw [isPre_iff]
    unfold stripPrefixL at hblock
    rw [if_pos hpre] at hblock
    rw [hblock]
    exact extract_isPre (m ++ usep) ymlSuffix e.1 (isPre_iff.mp hpre)
  case isFalse => exact absurd h (by simp)

theorem xml_corr (m block : Name) (e : Entry) (h : xmlBlockName m e.1 = some block) :
    grcMatch block m e = true := by
  unfold xmlBlockName at h
  split at h
  case isTrue hcond =>
    rw [Bool.and_eq_true] at hcond
    obtain ⟨hpre, hxml⟩ := hcond
    have hblock : block = stripSuffixL xmlSuffix (stripPrefixL (m ++ usep) e.1) :=
      (Option.some_inj.mp h).symm
    unfold grcMatch
    rw [Bool.and_eq_true, Bool.or_eq_true]
    refine ⟨?_, Or.inr hxml⟩
    rw [isPre_iff]
    unfold stripPrefixL at hblock
    rw [if_pos hpre] at hblock
    rw [hblock]
    exact extract_isPre (m ++ usep) xmlSuffix e.1 (isPre_iff.mp hpre)
  case isFalse => exact absurd h (by simp)

theorem cpp_corr (m block : Name) (e : Entry) (h : cppBlockName m e.1 = some block) :
    cppMatch block e = true := by
  unfold cppBlockName at h
  split at h
  case isTrue hcond =>
    rw [Bool.and_eq_true] at hcond
    obtain ⟨hcpp, _⟩ := hcond
    have hsuf : hSuffix.isSuffixOf e.1 = true := by
      unfold filterCppBlocks at hcpp
      rw [Bool.and_eq_true] at hcpp
      exact hcpp.1
    have hblock : block = stripSuffixL hSuffix e.1 := (Option.some_inj.mp h).symm
    unfold cppMatch
    rw [Bool.and_eq_true]
    refine ⟨?_, hcpp⟩
    rw [isPre_iff, hblock]
    exact ⟨hSuffix, stripSuffixL_append hSuffix e.1 hsuf⟩
  case isFalse => exact absurd h (by simp)

theorem py_corr (block : Name) (e : Entry) (h : pyBlockName e.1 = some block) :
    pyMatch block e = true := by
  unfold pyBlockName at h
  split at h
  case isTrue hcond =>
    have hsuf : pySuffix.isSuffixOf e.1 = true := by
      unfold filterPyBlocks at hcond
      rw [Bool.and_eq_true, Bool.and_eq_true] at hcond
      exact hcond.1.1
    have hblock : block = stripSuffixL pySuffix e.1 := (Option.some_inj.mp h).symm
    unfold pyMatch
    rw [Bool.and_eq_true]
    refine ⟨?_, hcond⟩
    rw [isPre_iff, hblock]
    exact ⟨pySuffix, stripSuffixL_append pySuffix e.1 hsuf⟩
  case isFalse => exact absurd h (by simp)

theorem impl_corr (block : Name) (e : Entry) (h : cppImplBlockName e.1 = some block) :
    cppImplMatch block e = true := by
  unfold cppImplBlockName at h
  split at h
  case isTrue hcond =>
    have hblock : block = stripSuffixL implSuffix (stripCppExt e.1) :=
      (Option.some_inj.mp h).symm
    unfold cppImplMatch
    rw [Bool.and_eq_true, Bool.or_eq_true]
    refine ⟨?_, Or.inl hcond⟩
    rw [isPre_iff, hblock]
    exact (stripSuffixL_isPre implSuffix (stripCppExt e.1)).trans (stripCppExt_isPre e.1)
  case isFalse => exact absurd h (by simp)

/-- When the four facet directories all exist and hold only regular files,
the correlation succeeds and produces exactly the six filtered groups in
the source's concatenation order. -/
theorem tree_ok_all_files (block m : Name) (gs cs ps ls : List Entry)
    (hg : ∀ e ∈ gs, e.2 = FileType.file) (hc : ∀ e ∈ cs, e.2 = FileType.file)
    (hp : ∀ e ∈ ps, e.2 = FileType.file) (hl : ∀ e ∈ ls, e.2 = FileType.file) :
    getBlockFilesTree block ⟨some gs, some cs, some ps, some ls⟩ m =
      Except.ok
        (itemsOf (fun _ => labelBlockDef) dirGrc (gs.filter (grcMatch block m)) ++
         itemsOf (fun _ => labelImpl) (dirPython m) (ps.filter (pyMatch block)) ++
         itemsOf (fun _ => labelHeaderRole) (dirInclude m) (cs.filter (cppMatch block)) ++
         itemsOf cppImplLabel dirLib (ls.filter (cppImplMatch block)) ++
         itemsOf (fun _ => labelPyTests) (dirPython m) (ps.filter (pyTestMatch block)) ++
         itemsOf (fun _ => labelCppTests) dirLib (ls.filter (cppTestMatch block))) := by
  have h1 := mapE_ok_of_files (fun _ => labelBlockDef) dirGrc (gs.filter (grcMatch block m))
    (fun e he => hg e (List.mem_of_mem_filter he))
  have h2 := mapE_ok_of_files (fun _ => labelHeaderRole) (dirInclude m)
    (cs.filter (cppMatch block)) (fun e he => hc e (List.mem_of_mem_filter he))
  have h3 := mapE_ok_of_files (fun _ => labelImpl) (dirPython m)
    (ps.filter (pyMatch block)) (fun e he => hp e (List.mem_of_mem_filter he))
  have h4 := mapE_ok_of_files (fun _ => labelPyTests) (dirPython m)
    (ps.filter (pyTestMatch block)) (fun e he => hp e (List.mem_of_mem_filter he))
  have h5 := mapE_ok_of_files cppImplLabel dirLib
    (ls.filter (cppImplMatch block)) (fun e he => hl e (List.mem_of_mem_filter he))
  have h6 := mapE_ok_of_files (fun _ => labelCppTests) dirLib
    (ls.filter (cppTestMatch block)) (fun e he => hl e (List.mem_of_mem_filter he))
  simp [getBlockFilesTree, readdir, grcFilesOf, cppFilesOf, pyFilesOf, pyTestFilesOf,
    cppImplFilesOf, cppTestFilesOf, h1, h2, h3, h4, h5, h6]

/-- C1: the claim as stated fails on the code.  The inventory contains
`foo` (from the definition file in `grc`), but the correlator lists every
facet directory without catching a missing-directory failure, so the query
for `foo` propagates an error instead of returning a non-empty list. -/
theorem c1_counterexample :
    ("foo".data) ∈ getAllBlocks ("m".data) fs1cex ∧
      getBlockFilesTree ("foo".data) fs1cex ("m".data) = Except.error fileNotFoundMsg := by
  constructor
  · decide
  · rfl

/-- C1 (amended): when every scanned facet directory exists and all their
entries are regular files, a block identifier in the inventory always
correlates to a non-empty list of files. -/
theorem c1_inventory_correlation (block m : Name) (gs cs ps ls : List Entry)
    (hg : ∀ e ∈ gs, e.2 = FileType.file) (hc : ∀ e ∈ cs, e.2 = FileType.file)
    (hp : ∀ e ∈ ps, e.2 = FileType.file) (hl : ∀ e ∈ ls, e.2 = FileType.file)
    (hb : block ∈ getAllBlocks m ⟨some gs, some cs, some ps, some ls⟩) :
    ∃ l, getBlockFilesTree block ⟨some gs, some cs, some ps, some ls⟩ m = Except.ok l ∧
      l ≠ [] := by
  have htree := tree_ok_all_files block m gs cs ps ls hg hc hp hl
  refine ⟨_, htree, ?_⟩
  intro hnil
  simp only [List.append_eq_nil, itemsOf, List.map_eq_nil_iff] at hnil
  obtain ⟨⟨⟨⟨⟨hA, hB⟩, hC⟩, hD⟩, hE⟩, hF⟩ := hnil
  simp only [getAllBlocks, listDirOrEmpty, Option.getD_some, List.mem_append,
    getGrcBlocks, getXmlBlocksOf, getCppBlocksOf, getPyBlocks, getCppImplBlocks,
    List.mem_filterMap] at hb
  rcases hb with ((((⟨e, he, hsome⟩ | ⟨e, he, hsome⟩) | ⟨e, he, hsome⟩) |
      ⟨e, he, hsome⟩) | ⟨e, he, hsome⟩)
  · have hmem : e ∈ gs.filter (grcMatch block m) :=
      List.mem_filter.mpr ⟨he, grc_corr m block e hsome⟩
    rw [hA] at hmem
    exact absurd hmem (List.not_mem_nil e)
  · have hmem : e ∈ gs.filter (grcMatch block m) :=
      List.mem_filter.mpr ⟨he, xml_corr m block e hsome⟩
    rw [hA] at hmem
    exact absurd hmem (List.not_mem_nil e)
  · have hmem : e ∈ cs.filter (cppMatch block) :=
      List.mem_filter.mpr ⟨he, cpp_corr m block e hsome⟩
    rw [hC] at hmem
    exact absurd hmem (List.not_mem_nil e)
  · have hmem : e ∈ ps.filter (pyMatch block) :=
      List.mem_filter.mpr ⟨he, py_corr block e hsome⟩
    rw [hB] at hmem
    exact absurd hmem (List.not_mem_nil e)
  · have hmem : e ∈ ls.filter (cppImplMatch block) :=
      List.mem_filter.mpr ⟨he, impl_corr block e hsome⟩
    rw [hD] at hmem
    exact absurd hmem (List.not_mem_nil e)

/-- C1 (amended) instantiated at a concrete project. -/
theorem c1_witness :
    ("foo".data) ∈
        getAllBlocks ("m".data)
          ⟨some [(("m_foo.block.yml").data, FileType.file)], some [], some [], some []⟩ ∧
      ∃ l, getBlockFilesTree ("foo".data)
          ⟨some [(("m_foo.block.yml").data, FileType.file)], some [], some [], some []⟩
          ("m".data) = Except.ok l ∧ l ≠ [] :=
  ⟨by decide,
   c1_inventory_correlation ("foo".data) ("m".data)
     [(("m_foo.block.yml").data, FileType.file)] [] [] []
     (by decide) (by decide) (by decide) (by decide) (by decide)⟩

/-- Decomposition of a successful correlation query: all four directory
listings succeeded, all six facet groups succeeded, and the result is
their concatenation in the source's order. -/
theorem tree_shape (block m : Name) (fs : ProjectFS) (l : List Item)
    (h : getBlockFilesTree block fs m = Except.ok l) :
    ∃ gs cs ps ls a c p pt i ct,
      fs.grc = some gs ∧ fs.includeDir = some cs ∧ fs.pythonDir = some ps ∧
      fs.libDir = some ls ∧
      grcFilesOf block m gs = Except.ok a ∧
      pyFilesOf block m ps = Except.ok p ∧
      cppFilesOf block m cs = Except.ok c ∧
      cppImplFilesOf block ls = Except.ok i ∧
      pyTestFilesOf block m ps = Except.ok pt ∧
      cppTestFilesOf block ls = Except.ok ct ∧
      l = a ++ p ++ c ++ i ++ pt ++ ct := by
  obtain ⟨og, oc, op, ol⟩ := fs
  cases og with
  | none => simp [getBlockFilesTree, readdir] at h
  | some gs =>
  cases ha : grcFilesOf block m gs with
  | error ea => simp [getBlockFilesTree, readdir, ha] at h
  | ok a =>
  cases oc with
  | none => simp [getBlockFilesTree, readdir, ha] at h
  | some cs =>
  cases hc2 : cppFilesOf block m cs with
  | error ec => simp [getBlockFilesTree, readdir, ha, hc2] at h
  | ok c =>
  cases op with
  | none => simp [getBlockFilesTree, readdir, ha, hc2] at h
  | some ps =>
  cases hp2 : pyFilesOf block m ps with
  | error ep => simp [getBlockFilesTree, readdir, ha, hc2, hp2] at h
  | ok p =>
  cases hpt : pyTestFilesOf block m ps with
  | error ept => simp [getBlockFilesTree, readdir, ha, hc2, hp2, hpt] at h
  | ok pt =>
  cases ol with
  | none => simp [getBlockFilesTree, readdir, ha, hc2, hp2, hpt] at h
  | some ls =>
  cases hi : cppImplFilesOf block ls with
  | error ei => simp [getBlockFilesTree, readdir, ha, hc2, hp2, hpt, hi] at h
  | ok i =>
  cases hct : cppTestFilesOf block ls with
  | error ect => simp [getBlockFilesTree, readdir, ha, hc2, hp2, hpt, hi, hct] at h
  | ok ct =>
  refine ⟨gs, cs, ps, ls, a, c, p, pt, i, ct, rfl, rfl, rfl, rfl,
    ha, hp2, hc2, hi, hpt, hct, ?_⟩
  simp only [getBlockFilesTree, readdir, ha, hc2, hp2, hpt, hi, hct,
    ok_bind, pure_ok, Except.ok.injEq] at h
  exact h.symm

/-- C2: every successful correlation result decomposes into six
consecutive groups whose role labels follow the fixed presentation order
of the source: block definition, implementation (python), public header,
implementation source/header (lib), python tests, C++ tests. -/
theorem c2_presentation_order (block m : Name) (fs : ProjectFS) (l : List Item)
    (h : getBlockFilesTree block fs m = Except.ok l) :
    ∃ defFiles implFiles headerFiles libFiles pyTestItems cppTestItems,
      l = defFiles ++ implFiles ++ headerFiles ++ libFiles ++ pyTestItems ++ cppTestItems ∧
      (∀ x ∈ defFiles, x.1 = labelBlockDef) ∧
      (∀ x ∈ implFiles, x.1 = labelImpl) ∧
      (∀ x ∈ headerFiles, x.1 = labelHeaderRole) ∧
      (∀ x ∈ libFiles, x.1 = labelImplSource ∨ x.1 = labelImplHeader) ∧
      (∀ x ∈ pyTestItems, x.1 = labelPyTests) ∧
      (∀ x ∈ cppTestItems, x.1 = labelCppTests) := by
  obtain ⟨gs, cs, ps, ls, a, c, p, pt, i, ct, _, _, _, _, ha, hp2, hc2, hi, hpt, hct, hl⟩ :=
    tree_shape block m fs l h
  refine ⟨a, p, c, i, pt, ct, hl, ?_, ?_, ?_, ?_, ?_, ?_⟩
  · intro x hx
    obtain ⟨e, _, hxe⟩ :=
      mapE_ok_mem (fun _ => labelBlockDef) dirGrc (gs.filter (grcMatch block m)) a ha x hx
    rw [hxe]
  · intro x hx
    obtain ⟨e, _, hxe⟩ :=
      mapE_ok_mem (fun _ => labelImpl) (dirPython m) (ps.filter (pyMatch block)) p hp2 x hx
    rw [hxe]
  · intro x hx
    obtain ⟨e, _, hxe⟩ :=
      mapE_ok_mem (fun _ => labelHeaderRole) (dirInclude m) (cs.filter (cppMatch block)) c
        hc2 x hx
    rw [hxe]
  · intro x hx
    obtain ⟨e, _, hxe⟩ :=
      mapE_ok_mem cppImplLabel dirLib (ls.filter (cppImplMatch block)) i hi x hx
    rw [hxe]
    unfold cppImplLabel
    by_cases hext : extname e.1 = hSuffix
    · rw [if_pos hext]
      exact Or.inr rfl
    · rw [if_neg hext]
      exact Or.inl rfl
  · intro x hx
    obtain ⟨e, _, hxe⟩ :=
      mapE_ok_mem (fun _ => labelPyTests) (dirPython m) (ps.filter (pyTestMatch block)) pt
        hpt x hx
    rw [hxe]
  · intro x hx
    obtain ⟨e, _, hxe⟩ :=
      mapE_ok_mem (fun _ => labelCppTests) dirLib (ls.filter (cppTestMatch block)) ct
        hct x hx
    rw [hxe]

/-- C2 instantiated at a concrete project holding an implementation file
and a C++ test file. -/
theorem c2_witness :
    ∃ defFiles implFiles headerFiles libFiles pyTestItems cppTestItems,
      [(labelImplSource, ("lib/foo_impl.cc").data), (labelCppTests, ("lib/qa_foo.cc").data)] =
          defFiles ++ implFiles ++ headerFiles ++ libFiles ++ pyTestItems ++ cppTestItems ∧
        (∀ x ∈ defFiles, x.1 = labelBlockDef) ∧
        (∀ x ∈ implFiles, x.1 = labelImpl) ∧
        (∀ x ∈ headerFiles, x.1 = labelHeaderRole) ∧
        (∀ x ∈ libFiles, x.1 = labelImplSource ∨ x.1 = labelImplHeader) ∧
        (∀ x ∈ pyTestItems, x.1 = labelPyTests) ∧
        (∀ x ∈ cppTestItems, x.1 = labelCppTests) :=
  c2_presentation_order ("foo".data) ("m".data) fs7
    [(labelImplSource, ("lib/foo_impl.cc").data), (labelCppTests, ("lib/qa_foo.cc").data)]
    (by rfl)

/-- C3: the claim as stated fails on the code.  With the `grc` facet
directory missing (and every other facet directory present), the
correlation query does not return successfully with zero matches for that
facet: it propagates the platform's missing-directory failure. -/
theorem c3_counterexample :
    getBlockFilesTree ("foo".data) fs3 ("m".data) = Except.error fileNotFoundMsg := by
  rfl

/-- C3 (amended): inventory queries never fail on a missing facet
subdirectory — a missing or unreadable project root is reported as an
error, a present root always yields an inventory, each facet of a missing
directory contributes zero matches, and the inventory equals the one
computed with every missing facet directory replaced by an empty one.
The file correlator, by contrast, returns an error (not zero matches)
whenever any of its four scanned facet subdirectories is missing, and
with every scanned directory absent — a missing project root — it
returns the platform's missing-directory error. -/
theorem c3_missing_subdir (block m : Name) (fs : ProjectFS) :
    listAllBlocks m none = Except.error fileNotFoundMsg ∧
      listAllBlocks m (some fs) = Except.ok (getAllBlocks m fs) ∧
      (getGrcBlocks m (listDirOrEmpty none) = [] ∧
        getXmlBlocksOf m (listDirOrEmpty none) = [] ∧
        getCppBlocksOf m (listDirOrEmpty none) = [] ∧
        getPyBlocks (listDirOrEmpty none) = [] ∧
        getCppImplBlocks (listDirOrEmpty none) = []) ∧
      getAllBlocks m fs =
        getAllBlocks m
          ⟨some (listDirOrEmpty fs.grc), some (listDirOrEmpty fs.includeDir),
           some (listDirOrEmpty fs.pythonDir), some (listDirOrEmpty fs.libDir)⟩ ∧
      ((fs.grc = none ∨ fs.includeDir = none ∨ fs.pythonDir = none ∨ fs.libDir = none) →
        ∃ e, getBlockFilesTree block fs m = Except.error e) ∧
      getBlockFilesTree block ⟨none, none, none, none⟩ m =
        Except.error fileNotFoundMsg := by
  refine ⟨rfl, rfl, ⟨rfl, rfl, rfl, rfl, rfl⟩, rfl, ?_, rfl⟩
  intro hnone
  cases hres : getBlockFilesTree block fs m with
  | error e => exact ⟨e, rfl⟩
  | ok l =>
    exfalso
    obtain ⟨gs, cs, ps, ls, a, c, p, pt, i, ct, hg, hc, hp, hl', _⟩ :=
      tree_shape block m fs l hres
    rcases hnone with hn | hn | hn | hn
    · rw [hn] at hg
      exact absurd hg (by simp)
    · rw [hn] at hc
      exact absurd hc (by simp)
    · rw [hn] at hp
      exact absurd hp (by simp)
    · rw [hn] at hl'
      exact absurd hl' (by simp)

/-- C3 (amended) instantiated: the project `fs3` is missing its `grc`
facet directory, and its correlation query for `foo` fails with an
error. -/
theorem c3_witness :
    (fs3.grc = none ∨ fs3.includeDir = none ∨ fs3.pythonDir = none ∨
        fs3.libDir = none) ∧
      ∃ e, getBlockFilesTree ("foo".data) fs3 ("m".data) = Except.error e :=
  ⟨Or.inl rfl,
   (c3_missing_subdir ("foo".data) ("m".data) fs3).2.2.2.2.1 (Or.inl rfl)⟩

/-- C4: the character-class check does not reject every character outside
letters, digits and underscore: the source's class also admits the comma,
so `ab,cd` — which the claim says must be rejected with an error — is
accepted as valid (the source returns null). -/
theorem c4_comma_accepted : validateBlockName [] ("ab,cd".data) = none := by decide

/-- C5: when the candidate equals an existing identifier, name resolution
takes the exact-match branch and operates on that single block, whatever
the regular-expression semantics would match. -/
theorem c5_exact_match_precedence (test : Name → Name → Bool) (S : List Name) (c : Name)
    (h : c ∈ S) : resolveBlockSet test S c = Resolution.single c := by
  simp [resolveBlockSet, h]

/-- C5 instantiated: `foo` is an existing identifier and, read as a
pattern, would also match `foobar`; resolution still selects only
`foo`. -/
theorem c5_witness :
    ("foo".data) ∈ [("foo".data), ("foobar".data)] ∧
      resolveBlockSet (fun p b => p.isPrefixOf b) [("foo".data), ("foobar".data)]
          ("foo".data) = Resolution.single ("foo".data) :=
  ⟨by decide,
   c5_exact_match_precedence (fun p b => p.isPrefixOf b)
     [("foo".data), ("foobar".data)] ("foo".data) (by decide)⟩

/-- C6: when the candidate equals no existing identifier, resolution is
the filter of the inventory by the pattern-match predicate; the selection
is a subset of the inventory and is empty exactly when no identifier
matches. -/
theorem c6_regex_filter (test : Name → Name → Bool) (S : List Name) (c : Name)
    (h : c ∉ S) :
    resolveBlockSet test S c = Resolution.many (S.filter (test c)) ∧
      (∀ b ∈ S.filter (test c), b ∈ S) ∧
      (S.filter (test c) = [] ↔ ∀ b ∈ S, test c b = false) := by
  refine ⟨by simp [resolveBlockSet, h], fun b hb => (List.mem_filter.mp hb).1, ?_⟩
  simp [List.filter_eq_nil_iff]

/-- C6 instantiated: `ab` is not an identifier; as a pattern it selects
exactly the matching subset of the inventory. -/
theorem c6_witness :
    ("ab".data) ∉ [("abc".data), ("xyz".data)] ∧
      (resolveBlockSet (fun p b => p.isPrefixOf b) [("abc".data), ("xyz".data)] ("ab".data) =
          Resolution.many
            (List.filter ((fun p b => p.isPrefixOf b) ("ab".data))
              [("abc".data), ("xyz".data)]) ∧
        (∀ b ∈ List.filter ((fun p b => p.isPrefixOf b) ("ab".data))
            [("abc".data), ("xyz".data)], b ∈ [("abc".data), ("xyz".data)]) ∧
        (List.filter ((fun p b => p.isPrefixOf b) ("ab".data))
            [("abc".data), ("xyz".data)] = [] ↔
          ∀ b ∈ [("abc".data), ("xyz".data)],
            (fun p b => p.isPrefixOf b) ("ab".data) b = false)) :=
  ⟨by decide,
   c6_regex_filter (fun p b => p.isPrefixOf b) [("abc".data), ("xyz".data)] ("ab".data)
     (by decide)⟩

/-- C7: with `lib` holding `foo_impl.cc` and `qa_foo.cc`, the
implementation-derived block set is exactly `foo`, and the correlation for
`foo` lists the implementation file under "Implementation source" and the
test file under "C++ Tests". -/
theorem c7_lib_scenario :
    getCppImplBlocks
        [(("foo_impl.cc").data, FileType.file), (("qa_foo.cc").data, FileType.file)] =
        [("foo".data)] ∧
      getBlockFilesTree ("foo".data) fs7 ("m".data) =
        Except.ok [(labelImplSource, ("lib/foo_impl.cc").data),
          (labelCppTests, ("lib/qa_foo.cc").data)] := by
  constructor
  · decide
  · rfl

/-- C8: the length check precedes the collision check, so a 1- or
2-character name made of allowed characters that collides with an existing
identifier yields the non-blocking warning, not the collision error. -/
theorem c8_short_collision_warns (S : List Name) (v : Name)
    (h1 : 0 < (trimL v).length) (h2 : (trimL v).length < 3)
    (h3 : ∀ ch ∈ trimL v, wordChar ch = true) (h4 : trimL v ∈ S) :
    validateBlockName S v = some ⟨msgShort, Severity.warning⟩ := by
  have hne : ¬(trimL v).length = 0 := by omega
  have hcc : nameCharClassOk (trimL v) = true := by
    unfold nameCharClassOk
    rw [Bool.and_eq_true]
    constructor
    · cases htv : trimL v with
      | nil =>
        rw [htv] at h1
        simp at h1
      | cons ch t => rfl
    · rw [List.all_eq_true]
      intro ch hch
      rw [Bool.or_eq_true]
      exact Or.inl (h3 ch hch)
  unfold validateBlockName
  rw [if_neg hne, hcc]
  simp [h2]

/-- C8 instantiated: the existing 2-character identifier `ab`, validated
against an inventory already containing it, warns instead of reporting the
collision. -/
theorem c8_witness :
    0 < (trimL ("ab".data)).length ∧ (trimL ("ab".data)).length < 3 ∧
      (∀ ch ∈ trimL ("ab".data), wordChar ch = true) ∧
      trimL ("ab".data) ∈ [("ab".data)] ∧
      validateBlockName [("ab".data)] ("ab".data) = some ⟨msgShort, Severity.warning⟩ :=
  ⟨by decide, by decide, by decide, by decide,
   c8_short_collision_warns [("ab".data)] ("ab".data) (by decide) (by decide)
     (by decide) (by decide)⟩

theorem filter_singleton_pos (p : Entry → Bool) (x : Entry) (h : p x = true) :
    List.filter p [x] = [x] := by
  rw [List.filter_cons_of_pos h]
  rfl

theorem filter_singleton_neg (p : Entry → Bool) (x : Entry) (h : p x = false) :
    List.filter p [x] = [] := by
  rw [List.filter_cons_of_neg (by simp [h])]
  rfl

theorem extAux_append (xs ys e : Name) (h : extAux ys = some e) :
    extAux (xs ++ ys) = some e := by
  induction xs with
  | nil => simpa using h
  | cons c cs ih => simp [extAux, ih]

/-- C9: when `a` is a proper leading fragment of another identifier `b`,
the correlation for `a` also picks up `b`'s definition file, public
header, python implementation and library implementation, because the
entries are matched by a leading-fragment test on the file name rather
than by exact identifier extraction. -/
theorem c9_prefix_overcapture (m a rest : Name) (hrest : rest ≠ [])
    (hH : filterCppBlocks (a ++ rest ++ hSuffix) = true)
    (hP : filterPyBlocks (a ++ rest ++ pySuffix) = true)
    (hI : filterCppImplFiles (a ++ rest ++ implSuffix ++ ccSuffix) = true) :
    ∃ l,
      getBlockFilesTree a
          ⟨some [(m ++ usep ++ (a ++ rest) ++ ymlSuffix, FileType.file)],
           some [(a ++ rest ++ hSuffix, FileType.file)],
           some [(a ++ rest ++ pySuffix, FileType.file)],
           some [(a ++ rest ++ implSuffix ++ ccSuffix, FileType.file)]⟩ m =
        Except.ok l ∧
      (labelBlockDef, dirGrc ++ slash ++ (m ++ usep ++ (a ++ rest) ++ ymlSuffix)) ∈ l ∧
      (labelHeaderRole, dirInclude m ++ slash ++ (a ++ rest ++ hSuffix)) ∈ l ∧
      (labelImpl, dirPython m ++ slash ++ (a ++ rest ++ pySuffix)) ∈ l ∧
      (labelImplSource, dirLib ++ slash ++ (a ++ rest ++ implSuffix ++ ccSuffix)) ∈ l := by
  have hgm : grcMatch a m (m ++ usep ++ (a ++ rest) ++ ymlSuffix, FileType.file) = true := by
    unfold grcMatch
    rw [Bool.and_eq_true, Bool.or_eq_true]
    constructor
    · rw [isPre_iff]
      exact ⟨rest ++ ymlSuffix, by simp [List.append_assoc]⟩
    · left
      unfold filterGrcBlocks
      rw [List.isSuffixOf_iff_suffix]
      exact List.suffix_append _ _
  have hcm : cppMatch a (a ++ rest ++ hSuffix, FileType.file) = true := by
    unfold cppMatch
    rw [Bool.and_eq_true]
    refine ⟨?_, hH⟩
    rw [isPre_iff]
    exact ⟨rest ++ hSuffix, by simp [List.append_assoc]⟩
  have hpm : pyMatch a (a ++ rest ++ pySuffix, FileType.file) = true := by
    unfold pyMatch
    rw [Bool.and_eq_true]
    refine ⟨?_, hP⟩
    rw [isPre_iff]
    exact ⟨rest ++ pySuffix, by simp [List.append_assoc]⟩
  have him : cppImplMatch a (a ++ rest ++ implSuffix ++ ccSuffix, FileType.file) = true := by
    unfold cppImplMatch
    rw [Bool.and_eq_true, Bool.or_eq_true]
    refine ⟨?_, Or.inl hI⟩
    rw [isPre_iff]
    exact ⟨rest ++ implSuffix ++ ccSuffix, by simp [List.append_assoc]⟩
  have hqaP : filterBlockTests (a ++ rest ++ pySuffix) = false := by
    have hP' := hP
    unfold filterPyBlocks at hP'
    simp only [Bool.and_eq_true, Bool.not_eq_true'] at hP'
    exact hP'.2
  have hptm : pyTestMatch a (a ++ rest ++ pySuffix, FileType.file) = false := by
    unfold pyTestMatch
    rw [hqaP]
    rfl
  have hqaL : filterBlockTests (a ++ rest ++ implSuffix ++ ccSuffix) = false := by
    have hI' := hI
    unfold filterCppImplFiles at hI'
    simp only [Bool.and_eq_true, Bool.not_eq_true'] at hI'
    exact hI'.1.2
  have hctm : cppTestMatch a (a ++ rest ++ implSuffix ++ ccSuffix, FileType.file) = false := by
    unfold cppTestMatch
    rw [hqaL]
    rfl
  have hext : extname (a ++ rest ++ implSuffix ++ ccSuffix) = ccSuffix := by
    have h2 : extAux (a ++ rest ++ implSuffix ++ ccSuffix) = some ccSuffix :=
      extAux_append (a ++ rest ++ implSuffix) ccSuffix ccSuffix (by rfl)
    have hlen : ¬(ccSuffix.length = (a ++ rest ++ implSuffix ++ ccSuffix).length) := by
      have hr : 0 < rest.length := List.length_pos.mpr hrest
      simp only [List.length_append]
      have hcl : ccSuffix.length = 3 := rfl
      have hil : implSuffix.length = 5 := rfl
      omega
    unfold extname
    rw [h2]
    show (if List.length ccSuffix = List.length (a ++ rest ++ implSuffix ++ ccSuffix) then
      ([] : Name) else ccSuffix) = ccSuffix
    rw [if_neg hlen]
  have hlbl : cppImplLabel (a ++ rest ++ implSuffix ++ ccSuffix) = labelImplSource := by
    unfold cppImplLabel
    rw [if_neg ?hne]
    case hne =>
      rw [hext]
      decide
  have htree := tree_ok_all_files a m
    [(m ++ usep ++ (a ++ rest) ++ ymlSuffix, FileType.file)]
    [(a ++ rest ++ hSuffix, FileType.file)]
    [(a ++ rest ++ pySuffix, FileType.file)]
    [(a ++ rest ++ implSuffix ++ ccSuffix, FileType.file)]
    (by simp) (by simp) (by simp) (by simp)
  rw [filter_singleton_pos (grcMatch a m)
        (m ++ usep ++ (a ++ rest) ++ ymlSuffix, FileType.file) hgm,
      filter_singleton_pos (pyMatch a) (a ++ rest ++ pySuffix, FileType.file) hpm,
      filter_singleton_pos (cppMatch a) (a ++ rest ++ hSuffix, FileType.file) hcm,
      filter_singleton_pos (cppImplMatch a)
        (a ++ rest ++ implSuffix ++ ccSuffix, FileType.file) him,
      filter_singleton_neg (pyTestMatch a) (a ++ rest ++ pySuffix, FileType.file) hptm,
      filter_singleton_neg (cppTestMatch a)
        (a ++ rest ++ implSuffix ++ ccSuffix, FileType.file) hctm] at htree
  have hlbl' : cppImplLabel (a ++ (rest ++ (implSuffix ++ ccSuffix))) = labelImplSource := by
    rw [← List.append_assoc, ← List.append_assoc]
    exact hlbl
  refine ⟨_, htree, ?_, ?_, ?_, ?_⟩ <;> simp [itemsOf, hlbl']

/-- C9 instantiated at module `gr`, block `foo` and the longer block
`foobar`. -/
theorem c9_witness :
    ("bar".data ≠ ([] : Name)) ∧
      filterCppBlocks ("foo".data ++ "bar".data ++ hSuffix) = true ∧
      filterPyBlocks ("foo".data ++ "bar".data ++ pySuffix) = true ∧
      filterCppImplFiles ("foo".data ++ "bar".data ++ implSuffix ++ ccSuffix) = true ∧
      ∃ l,
        getBlockFilesTree ("foo".data)
            ⟨some [("gr".data ++ usep ++ ("foo".data ++ "bar".data) ++ ymlSuffix,
                FileType.file)],
             some [("foo".data ++ "bar".data ++ hSuffix, FileType.file)],
             some [("foo".data ++ "bar".data ++ pySuffix, FileType.file)],
             some [("foo".data ++ "bar".data ++ implSuffix ++ ccSuffix, FileType.file)]⟩
            ("gr".data) =
          Except.ok l ∧
        (labelBlockDef,
          dirGrc ++ slash ++ ("gr".data ++ usep ++ ("foo".data ++ "bar".data) ++ ymlSuffix))
          ∈ l ∧
        (labelHeaderRole, dirInclude ("gr".data) ++ slash ++
          ("foo".data ++ "bar".data ++ hSuffix)) ∈ l ∧
        (labelImpl, dirPython ("gr".data) ++ slash ++
          ("foo".data ++ "bar".data ++ pySuffix)) ∈ l ∧
        (labelImplSource, dirLib ++ slash ++
          ("foo".data ++ "bar".data ++ implSuffix ++ ccSuffix)) ∈ l :=
  ⟨by decide, by decide, by decide, by decide,
   c9_prefix_overcapture ("gr".data) ("foo".data) ("bar".data)
     (by decide) (by decide) (by decide) (by decide)⟩

/-- C10: a directory entry matching one of the queried block's file
patterns that is not a regular file makes the whole correlation query
fail with the sanity-check error, instead of being skipped. -/
theorem c10_nonfile_throws (block m : Name) (gs cs ps ls : List Entry)
    (h : ∃ e, e.2 ≠ FileType.file ∧
      (e ∈ gs.filter (grcMatch block m) ∨ e ∈ cs.filter (cppMatch block) ∨
       e ∈ ps.filter (pyMatch block) ∨ e ∈ ps.filter (pyTestMatch block) ∨
       e ∈ ls.filter (cppImplMatch block) ∨ e ∈ ls.filter (cppTestMatch block))) :
    getBlockFilesTree block ⟨some gs, some cs, some ps, some ls⟩ m =
      Except.error expectedFileMsg := by
  obtain ⟨e, hbad, hm⟩ := h
  have k1 := mapE_cases (fun _ => labelBlockDef) dirGrc (gs.filter (grcMatch block m))
  have k2 := mapE_cases (fun _ => labelHeaderRole) (dirInclude m) (cs.filter (cppMatch block))
  have k3 := mapE_cases (fun _ => labelImpl) (dirPython m) (ps.filter (pyMatch block))
  have k4 := mapE_cases (fun _ => labelPyTests) (dirPython m) (ps.filter (pyTestMatch block))
  have k5 := mapE_cases cppImplLabel dirLib (ls.filter (cppImplMatch block))
  rcases hm with hm | hm | hm | hm | hm | hm
  · have herr := mapE_err_of_bad (fun _ => labelBlockDef) dirGrc
      (gs.filter (grcMatch block m)) ⟨e, hm, hbad⟩
    simp [getBlockFilesTree, readdir, grcFilesOf, herr]
  · have herr := mapE_err_of_bad (fun _ => labelHeaderRole) (dirInclude m)
      (cs.filter (cppMatch block)) ⟨e, hm, hbad⟩
    rcases k1 with ⟨x1, hk1⟩ | hk1 <;>
      simp [getBlockFilesTree, readdir, grcFilesOf, cppFilesOf, hk1, herr]
  · have herr := mapE_err_of_bad (fun _ => labelImpl) (dirPython m)
      (ps.filter (pyMatch block)) ⟨e, hm, hbad⟩
    rcases k1 with ⟨x1, hk1⟩ | hk1 <;> rcases k2 with ⟨x2, hk2⟩ | hk2 <;>
      simp [getBlockFilesTree, readdir, grcFilesOf, cppFilesOf, pyFilesOf, hk1, hk2, herr]
  · have herr := mapE_err_of_bad (fun _ => labelPyTests) (dirPython m)
      (ps.filter (pyTestMatch block)) ⟨e, hm, hbad⟩
    rcases k1 with ⟨x1, hk1⟩ | hk1 <;> rcases k2 with ⟨x2, hk2⟩ | hk2 <;>
      rcases k3 with ⟨x3, hk3⟩ | hk3 <;>
      simp [getBlockFilesTree, readdir, grcFilesOf, cppFilesOf, pyFilesOf, pyTestFilesOf,
        hk1, hk2, hk3, herr]
  · have herr := mapE_err_of_bad cppImplLabel dirLib
      (ls.filter (cppImplMatch block)) ⟨e, hm, hbad⟩
    rcases k1 with ⟨x1, hk1⟩ | hk1 <;> rcases k2 with ⟨x2, hk2⟩ | hk2 <;>
      rcases k3 with ⟨x3, hk3⟩ | hk3 <;> rcases k4 with ⟨x4, hk4⟩ | hk4 <;>
      simp [getBlockFilesTree, readdir, grcFilesOf, cppFilesOf, pyFilesOf, pyTestFilesOf,
        cppImplFilesOf, hk1, hk2, hk3, hk4, herr]
  · have herr := mapE_err_of_bad (fun _ => labelCppTests) dirLib
      (ls.filter (cppTestMatch block)) ⟨e, hm, hbad⟩
    rcases k1 with ⟨x1, hk1⟩ | hk1 <;> rcases k2 with ⟨x2, hk2⟩ | hk2 <;>
      rcases k3 with ⟨x3, hk3⟩ | hk3 <;> rcases k4 with ⟨x4, hk4⟩ | hk4 <;>
      rcases k5 with ⟨x5, hk5⟩ | hk5 <;>
      simp [getBlockFilesTree, readdir, grcFilesOf, cppFilesOf, pyFilesOf, pyTestFilesOf,
        cppImplFilesOf, cppTestFilesOf, hk1, hk2, hk3, hk4, hk5, herr]

/-- C10 instantiated: a subdirectory named like a definition file of the
queried block makes the query fail. -/
theorem c10_witness :
    (∃ e, e.2 ≠ FileType.file ∧
      (e ∈ List.filter (grcMatch ("foo".data) ("m".data))
          [(("m_foo.block.yml").data, FileType.directory)] ∨
       e ∈ List.filter (cppMatch ("foo".data)) ([] : List Entry) ∨
       e ∈ List.filter (pyMatch ("foo".data)) ([] : List Entry) ∨
       e ∈ List.filter (pyTestMatch ("foo".data)) ([] : List Entry) ∨
       e ∈ List.filter (cppImplMatch ("foo".data)) ([] : List Entry) ∨
       e ∈ List.filter (cppTestMatch ("foo".data)) ([] : List Entry))) ∧
      getBlockFilesTree ("foo".data)
          ⟨some [(("m_foo.block.yml").data, FileType.directory)], some [], some [], some []⟩
          ("m".data) =
        Except.error expectedFileMsg :=
  ⟨⟨(("m_foo.block.yml").data, FileType.directory), by decide, Or.inl (by decide)⟩,
   c10_nonfile_throws ("foo".data) ("m".data)
     [(("m_foo.block.yml").data, FileType.directory)] [] [] []
     ⟨(("m_foo.block.yml").data, FileType.directory), by decide, Or.inl (by decide)⟩⟩

end GnuRadio
